import Mathlib

/-!
Verification of the MyBlogs client-side blog engine.

The development gives a shallow embedding, in Lean, of the data model and the
operations of the MyBlogs repository (hash router, search ranker, navigation
path resolution, markdown front-matter parsing and loading, table of
contents generation), translated from the JavaScript sources
(`scripts/router.js`, `scripts/search.js`, `scripts/toc.js`, the markdown
renderer and app wiring files), and proves or refutes the specified
properties of those operations.

Strings are modelled by Lean `String` values; where a JavaScript string
method has no direct Lean counterpart (`split`, `includes`, `indexOf`,
`Array.prototype.join`) we define an explicit recursive model over the
character list `String.data` and note which JS operation it embeds.
-/

namespace MyBlogs

/-! ### JavaScript string primitives -/

/-- Model of `hay.includes(needle)` (JS `String.prototype.includes`):
`needle` occurs as a contiguous substring of `hay`. -/
def jsIncludes (hay needle : String) : Bool :=
  decide (needle.data <:+: hay.data)

/-- Model of `hay.startsWith(needle)` (JS `String.prototype.startsWith`). -/
def jsStartsWith (hay needle : String) : Bool :=
  decide (needle.data <+: hay.data)

/-- Accumulator-style model of JS `str.split(sep)` for a one-character
separator: splits at every occurrence of `sep`, keeping empty pieces,
exactly as `'a//b'.split('/') == ['a','','b']`. -/
def splitAux (sep : Char) : List Char → List Char → List (List Char)
  | [], acc => [acc.reverse]
  | c :: cs, acc =>
    if c == sep then acc.reverse :: splitAux sep cs []
    else splitAux sep cs (c :: acc)

/-- Model of `str.split(sep)` for a one-character separator. -/
def jsSplitChar (sep : Char) (s : String) : List String :=
  (splitAux sep s.data []).map String.mk

/-- Tokeniser underlying `query.split(/\s+/).filter(Boolean)`: the combined
effect of splitting on whitespace runs and dropping empty strings is the
list of maximal runs of non-whitespace characters, in order. -/
def tokensAux : List Char → List Char → List (List Char)
  | [], acc => if acc.isEmpty then [] else [acc.reverse]
  | c :: cs, acc =>
    if c.isWhitespace then
      if acc.isEmpty then tokensAux cs []
      else acc.reverse :: tokensAux cs []
    else tokensAux cs (c :: acc)

/-- Model of `query.split(/\s+/).filter(Boolean)` from `Search.search`. -/
def jsTerms (q : String) : List String :=
  (tokensAux q.data []).map String.mk

/-- Model of `Array.prototype.join(sep)` as used by `Router.buildPath`. -/
def jsJoin (sep : String) : List String → String
  | [] => ""
  | [x] => x
  | x :: y :: xs => x ++ sep ++ jsJoin sep (y :: xs)

/-- Model of `str.indexOf(c)` for a single character: index of the first
occurrence, `none` standing for JS's `-1`. -/
def jsIndexOf (c : Char) : List Char → Option Nat
  | [] => none
  | d :: ds => if d == c then some 0 else (jsIndexOf c ds).map (· + 1)

/-- JS truthiness of a possibly-null string (`null` and `''` are falsy). -/
def optTruthy : Option String → Bool
  | none => false
  | some s => !s.data.isEmpty

/-- Model of JS `String.prototype.toLowerCase`: lowercases character by
character (like `Char.toLower`, basic latin letters only), defined directly
on the character list. -/
def jsToLower (s : String) : String :=
  String.mk (s.data.map Char.toLower)

/-- Model of JS `String.prototype.trim`: removes leading and trailing
whitespace. -/
def jsTrim (s : String) : String :=
  String.mk
    (((s.data.dropWhile Char.isWhitespace).reverse.dropWhile
      Char.isWhitespace).reverse)

namespace Router

/-- Route record produced by `Router.parseHash` (router.js):
`{ skill, topic, article, path, parts }`, with `null` fields modelled by
`none`. -/
structure Route where
  skill : Option String
  topic : Option String
  article : Option String
  path : String
  parts : List String
deriving DecidableEq, Repr

/-- Embedding of `Router.parseHash` (router.js lines 20-31), as a function
of the raw `window.location.hash` string (including the leading `#`):
`const hash = window.location.hash.slice(1) || '/';
 const parts = hash.split('/').filter(Boolean);` and positional assignment
`parts[0] || null` etc. (the `|| null` can only fire on a missing index,
since empty segments were filtered out). -/
def parseHash (locationHash : String) : Route :=
  let sliced := locationHash.data.drop 1
  let hash := if sliced.isEmpty then ['/'] else sliced
  let parts := ((splitAux '/' hash []).map String.mk).filter
    (fun s => !s.data.isEmpty)
  { skill := parts[0]?
    topic := parts[1]?
    article := parts[2]?
    path := String.mk hash
    parts := parts }

/-- Embedding of `Router.buildPath` (router.js lines 51-57):
`const parts = ['']; if (skill) parts.push(skill); ... parts.join('/')`. -/
def buildPath (skill topic article : Option String) : String :=
  let parts : List String :=
    [""] ++ (if optTruthy skill then [skill.getD ""] else [])
         ++ (if optTruthy topic then [topic.getD ""] else [])
         ++ (if optTruthy article then [article.getD ""] else [])
  jsJoin "/" parts

/-- Slug-safe strings as described by the specification: non-empty, no `/`,
no `#`, no whitespace. -/
def SlugSafe (s : String) : Prop :=
  s.data ≠ [] ∧ ∀ c ∈ s.data, c ≠ '/' ∧ c ≠ '#' ∧ c.isWhitespace = false

instance (s : String) : Decidable (SlugSafe s) := by
  unfold SlugSafe; infer_instance

end Router

namespace Search

/-- Flat article record built by Navigation and consumed by `Search.search`
(spec §3, `FlatArticleRecord`). -/
structure FlatArticle where
  title : String
  skill : String
  skillSlug : String
  topic : String
  topicSlug : String
  slug : String
  file : String
deriving DecidableEq, Repr

/-- Embedding of the per-article score computed inside `Search.search`
(search.js lines 158-185): split the query on whitespace, +10 per term
contained in the lowercased title, +5 more per such term the title starts
with, then +3 / +2 if the raw query is contained in the lowercased skill /
topic name.  Note the code lowercases the article fields but *not* the
query: callers (`handleInput`) lowercase the query before calling. -/
def score (query : String) (a : FlatArticle) : Nat :=
  let terms := jsTerms query
  let titleLower := jsToLower a.title
  let titleScore := terms.foldl
    (fun sc term =>
      if jsIncludes titleLower term then
        sc + 10 + (if jsStartsWith titleLower term then 5 else 0)
      else sc) 0
  titleScore
    + (if jsIncludes (jsToLower a.skill) query then 3 else 0)
    + (if jsIncludes (jsToLower a.topic) query then 2 else 0)

/-- The comparator `(a, b) => b.score - a.score` of search.js line 189:
under a stable sort it orders by weakly descending score. `scoreLe x y`
holds iff the comparator does not require `y` before `x`. -/
def scoreLe (x y : FlatArticle × Nat) : Bool :=
  decide (y.2 ≤ x.2)

/-- Embedding of `Search.search` (search.js lines 158-191): score every
article, keep positive scores, stable-sort by descending score
(JS `Array.prototype.sort` is stable), truncate to 10. -/
def search (query : String) (articles : List FlatArticle) :
    List (FlatArticle × Nat) :=
  ((((articles.map (fun a => (a, score query a))).filter
      (fun p => decide (0 < p.2))).mergeSort scoreLe).take 10)

/-- Scoring recipe transcribed from the specification's words (for
comparison with `score`): "lowercases and whitespace-splits the query into
terms", +10 / +5 against the lowercased title per term, +3 / +2 if "the raw
query" — after the claimed lowercasing — is contained in the skill / topic
name. -/
def claimScore (query : String) (a : FlatArticle) : Nat :=
  let ql := jsToLower query
  let terms := jsTerms ql
  let titleLower := jsToLower a.title
  let titleScore := terms.foldl
    (fun sc term =>
      if jsIncludes titleLower term then
        sc + 10 + (if jsStartsWith titleLower term then 5 else 0)
      else sc) 0
  titleScore
    + (if jsIncludes (jsToLower a.skill) ql then 3 else 0)
    + (if jsIncludes (jsToLower a.topic) ql then 2 else 0)

/-- Article used in the specification's search scenario. -/
def apexArticle : FlatArticle :=
  { title := "Apex Programming Basics"
    skill := "Salesforce"
    skillSlug := "sf"
    topic := "Developer"
    topicSlug := "developer"
    slug := "apex-basics"
    file := "apex-basics" }

/-- Article engineered to be outranked and then to overtake under query
extension (see the C5 counterexample). -/
def artHigh : FlatArticle :=
  { title := "ab cd", skill := "ab", skillSlug := "", topic := "ab"
    topicSlug := "", slug := "", file := "" }

/-- Companion article for the C5 counterexample. -/
def artLow : FlatArticle :=
  { title := "cd ab", skill := "zz", skillSlug := "", topic := "ab cd"
    topicSlug := "", slug := "", file := "" }

end Search

namespace Nav

/-- Manifest article node (spec §3): `{ slug, title, file }`. -/
structure ManifestArticle where
  slug : String
  title : String
  file : String
deriving DecidableEq, Repr

/-- Manifest topic node (spec §3): `{ slug, name, folder, order, articles }`. -/
structure ManifestTopic where
  slug : String
  name : String
  folder : String
  order : Int
  articles : List ManifestArticle
deriving DecidableEq, Repr

/-- Manifest skill node (spec §3): `{ slug, name, folder, order, topics }`. -/
structure ManifestSkill where
  slug : String
  name : String
  folder : String
  order : Int
  topics : List ManifestTopic
deriving DecidableEq, Repr

/-- Manifest file contents (spec §6): `{ generated, skills }`. -/
structure Manifest where
  generated : String
  skills : List ManifestSkill
deriving DecidableEq, Repr

/-- Modelled from the spec: `Navigation.getArticlePath(skill, topic,
article)` — the Navigation component's source file is not among the
provided sources (only its callers in the app wiring are), so this follows
spec §4.2 and §6: resolve each slug level by looking up the matching tree
node (`none` — the not-found signal — if any level has no match) and build
`content/<skillFolder>/<topicFolder>/<articleFile>.md` from the stored
folder names and file stem. -/
def getArticlePath (m : Manifest) (skill topic article : String) :
    Option String :=
  match m.skills.find? (fun sk => sk.slug == skill) with
  | none => none
  | some sk =>
    match sk.topics.find? (fun tp => tp.slug == topic) with
    | none => none
    | some tp =>
      match tp.articles.find? (fun ar => ar.slug == article) with
      | none => none
      | some ar =>
        some ("content/" ++ sk.folder ++ "/" ++ tp.folder ++ "/" ++
          ar.file ++ ".md")

/-- Article node of the specification's resolution scenario. -/
def demoArticle : ManifestArticle :=
  { slug := "user-management"
    title := "User Management in Salesforce"
    file := "user-management" }

/-- Topic node of the specification's resolution scenario. -/
def demoTopic : ManifestTopic :=
  { slug := "admin", name := "Admin", folder := "Admin", order := 1
    articles := [demoArticle] }

/-- Skill node of the specification's resolution scenario. -/
def demoSkill : ManifestSkill :=
  { slug := "sf", name := "Salesforce", folder := "Salesforce", order := 1
    topics := [demoTopic] }

/-- The manifest of the specification's resolution scenario. -/
def demoManifest : Manifest :=
  { generated := "2025-01-01T00:00:00Z"
    skills := [demoSkill] }

end Nav

namespace Markdown

/-- Recogniser for the separator `\n---\n` closing a front-matter block:
returns the text before the *first* occurrence (the lazy group
`([\s\S]*?)` of the front-matter regex) and the text after it. -/
def findFmSep : List Char → Option (List Char × List Char)
  | [] => none
  | c :: cs =>
    if ['\n', '-', '-', '-', '\n'].isPrefixOf (c :: cs) then
      some ([], (c :: cs).drop 5)
    else
      match findFmSep cs with
      | none => none
      | some (pre, post) => some (c :: pre, post)

/-- Embedding of the front-matter regex
`/^---\n([\s\S]*?)\n---\n([\s\S]*)$/` (markdown renderer, `parseFrontmatter`):
`some (raw, content)` when the document matches, `none` otherwise. -/
def fmSplit (doc : String) : Option (String × String) :=
  if ['-', '-', '-', '\n'].isPrefixOf doc.data then
    match findFmSep (doc.data.drop 4) with
    | none => none
    | some (fm, rest) => some (String.mk fm, String.mk rest)
  else none

/-- JS object assignment `meta[key] = value`: replace in place when the key
exists, append otherwise. -/
def metaSet : List (String × String) → String → String →
    List (String × String)
  | [], k, v => [(k, v)]
  | (k', v') :: rest, k, v =>
    if k' == k then (k', v) :: rest
    else (k', v') :: metaSet rest k v

/-- Embedding of the line loop of `parseFrontmatter`: split the raw block
on `\n`; for each line with a colon at a positive index, key is the text
before the first colon (trimmed) and value the text after it (trimmed);
lines without a qualifying colon are skipped. -/
def parseMeta (fm : String) : List (String × String) :=
  ((splitAux '\n' fm.data []).map String.mk).foldl
    (fun meta line =>
      match jsIndexOf ':' line.data with
      | some i =>
        if 0 < i then
          metaSet meta (jsTrim (String.mk (line.data.take i)))
            (jsTrim (String.mk (line.data.drop (i + 1))))
        else meta
      | none => meta)
    []

/-- Embedding of `MarkdownRenderer.parseFrontmatter`: front-matter block
parsed into flat key/value metadata plus the remaining content; a document
with no block yields empty metadata and the unmodified document. -/
def parseFrontmatter (doc : String) : List (String × String) × String :=
  match fmSplit doc with
  | none => ([], doc)
  | some (fm, content) => (parseMeta fm, content)

/-- Quote-stripping as the specification's words describe it (for
comparison: the code never strips quotes): remove one matching pair of
surrounding double quotes. -/
def stripQuotes (s : String) : String :=
  match s.data with
  | '"' :: rest =>
    if rest ≠ [] ∧ rest.getLast? = some '"' then String.mk rest.dropLast
    else s
  | _ => s

/-- What the markdown renderer's container shows. -/
inductive Display where
  | welcome
  | loading
  | article (meta : List (String × String)) (body : String)
  | errorState
deriving DecidableEq, Repr

/-- Combined state of the renderer plus the app state the renderer must not
touch: the router's current route and the navigation tree state (`Nav` is
abstract). `currentPath` is the renderer's `this.currentPath` field. -/
structure AppModel (Nav : Type) where
  currentPath : Option String
  display : Display
  route : Router.Route
  nav : Nav

/-- Events of the single-threaded event-interleaving model of
`MarkdownRenderer.load`:
`loadStart p` is the synchronous part of `load(p)` up to the `await`
(falsy path renders the welcome screen and returns; otherwise set
`currentPath`, render the loading state, issue the fetch), and
`fetchDone p outcome` is the continuation after the `await` (render the
parsed document on success, the error placeholder on HTTP error or network
failure — the `try`/`catch` swallows every exception, so the step is a
total function). -/
inductive Ev where
  | loadStart (path : Option String)
  | fetchDone (path : String) (outcome : Except Unit String)
deriving Repr

/-- One event step of the renderer model. Note that `fetchDone` renders
unconditionally: the code never compares the completed fetch's path with
`currentPath`. -/
def mdStep {Nav : Type} (s : AppModel Nav) (e : Ev) : AppModel Nav :=
  match e with
  | .loadStart none => { s with display := .welcome }
  | .loadStart (some p) =>
    if p.data.isEmpty then { s with display := .welcome }
    else { s with currentPath := some p, display := .loading }
  | .fetchDone _ (.ok md) =>
    let parsed := parseFrontmatter md
    { s with display := .article parsed.1 parsed.2 }
  | .fetchDone _ (.error _) => { s with display := .errorState }

/-- Run a sequence of interleaved events. -/
def runTrace {Nav : Type} (s : AppModel Nav) (es : List Ev) : AppModel Nav :=
  es.foldl mdStep s

/-- Initial state for the overlapping-load trace. -/
def raceStart : AppModel Unit :=
  { currentPath := none
    display := .welcome
    route := Router.parseHash "#/"
    nav := () }

/-- Overlapping article loads: `load(a)` starts, then `load(b)` starts
while the first fetch is pending; the fetch for `b` completes first, the
stale fetch for `a` completes last. -/
def raceTrace : List Ev :=
  [ .loadStart (some "content/Salesforce/Admin/a.md")
  , .loadStart (some "content/Salesforce/Admin/b.md")
  , .fetchDone "content/Salesforce/Admin/b.md" (.ok "Newer body")
  , .fetchDone "content/Salesforce/Admin/a.md" (.ok "Stale body") ]

end Markdown

namespace Toc

/-- A node of the rendered article content, in document order: a heading
element `h<level>` with its `id` attribute and text, or any other element. -/
inductive Node where
  | heading (level : Nat) (id : String) (text : String)
  | other
deriving DecidableEq, Repr

/-- What the TOC container shows. -/
inductive Display where
  | emptyState
  | tocList (links : List (String × String × Nat))
deriving DecidableEq, Repr

/-- State owned by `TableOfContents`: the rendered container, the stored
headings `(id, level)`, the anchor links `(href, text, level)`, and the
scroll-spy active index. -/
structure State where
  display : Display
  headings : List (String × Nat)
  links : List (String × String × Nat)
  activeIndex : Int
deriving DecidableEq, Repr

/-- Model of `querySelectorAll('h1, h2, h3, h4')` on the content: the
headings of levels 1-4 in document order, as `(level, id, text)`. -/
def headingsOf : Option (List Node) → List (Nat × String × String)
  | none => []
  | some nodes =>
    nodes.filterMap (fun n =>
      match n with
      | .heading l id txt =>
        if 1 ≤ l ∧ l ≤ 4 then some (l, id, txt) else none
      | .other => none)

/-- Last pass of `generateId`'s slugify: collapse each run of hyphens to a
single hyphen; the flag records whether the previous kept character was a
hyphen. -/
def collapseHyphens : Bool → List Char → List Char
  | _, [] => []
  | prev, c :: cs =>
    if c == '-' then
      if prev then collapseHyphens true cs
      else '-' :: collapseHyphens true cs
    else c :: collapseHyphens false cs

/-- Embedding of `TableOfContents.generateId` (toc.js lines 103-111):
lowercase, strip characters that are not word characters, whitespace or
hyphens, turn whitespace into hyphens, collapse hyphen runs, trim;
fall back to `heading-<index>` when the result is empty. (Replacing each
whitespace run by `-` and then collapsing `-` runs gives the same string
as replacing each whitespace character by `-` and then collapsing.) -/
def generateId (text : String) (index : Nat) : String :=
  let kept := (jsToLower text).data.filter
    (fun c => c.isAlphanum || c == '_' || c.isWhitespace || c == '-')
  let hyphened := kept.map (fun c => if c.isWhitespace then '-' else c)
  let slug := jsTrim (String.mk (collapseHyphens false hyphened))
  if slug.data.isEmpty then "heading-" ++ toString index else slug

/-- Embedding of `TableOfContents.generate` (toc.js lines 29-95): clear the
container and all three state fields unconditionally, then rebuild from the
given content; `null` content or content with no level 1-4 headings
renders the empty state (`renderEmpty`, toc.js lines 214-227). The new
state depends only on the content argument. -/
def generate (_prev : State) (content : Option (List Node)) : State :=
  let hs := headingsOf content
  if hs.isEmpty then
    { display := .emptyState, headings := [], links := [], activeIndex := -1 }
  else
    let withIds := hs.enum.map (fun p =>
      (p.2.1,
        (if p.2.2.1.data.isEmpty then generateId p.2.2.2 p.1 else p.2.2.1),
        p.2.2.2))
    { display := .tocList (withIds.map (fun h => ("#" ++ h.2.1, h.2.2, h.1)))
      headings := withIds.map (fun h => (h.2.1, h.1))
      links := withIds.map (fun h => ("#" ++ h.2.1, h.2.2, h.1))
      activeIndex := -1 }

end Toc

/-! ### Shared helper lemmas -/

theorem string_mk_data (s : String) : String.mk s.data = s := rfl

/-- Every result of `Search.search` has a positive score: results are drawn
from the score-positive filter of the scored article list. -/
theorem mem_search_pos {q : String} {arts : List Search.FlatArticle}
    {p : Search.FlatArticle × Nat} (hp : p ∈ Search.search q arts) :
    0 < p.2 := by
  unfold Search.search at hp
  have h1 := List.mem_of_mem_take hp
  rw [List.mem_mergeSort] at h1
  have h2 := List.mem_filter.mp h1
  simpa using h2.2

theorem splitAux_no_sep (sep : Char) (xs : List Char) :
    ∀ acc, (∀ c ∈ xs, c ≠ sep) → splitAux sep xs acc = [acc.reverse ++ xs] := by
  induction xs with
  | nil => intro acc _; simp [splitAux]
  | cons c cs ih =>
    intro acc h
    have hc : c ≠ sep := h c (by simp)
    simp only [splitAux]
    rw [if_neg (by simpa using hc)]
    rw [ih (c :: acc) (fun d hd => h d (by simp [hd]))]
    simp

theorem splitAux_sep_split (sep : Char) (rest : List Char) (xs : List Char) :
    ∀ acc, (∀ c ∈ xs, c ≠ sep) →
      splitAux sep (xs ++ sep :: rest) acc =
        (acc.reverse ++ xs) :: splitAux sep rest [] := by
  induction xs with
  | nil => intro acc _; simp [splitAux]
  | cons c cs ih =>
    intro acc h
    have hc : c ≠ sep := h c (by simp)
    simp only [List.cons_append, splitAux]
    rw [if_neg (by simpa using hc)]
    simp only [List.append_eq]
    rw [ih (c :: acc) (fun d hd => h d (by simp [hd]))]
    simp

theorem findFmSep_cons (c : Char) (cs : List Char) :
    Markdown.findFmSep (c :: cs) =
      if ['\n', '-', '-', '-', '\n'].isPrefixOf (c :: cs) then
        some ([], (c :: cs).drop 5)
      else
        match Markdown.findFmSep cs with
        | none => none
        | some (pre, post) => some (c :: pre, post) := rfl

/-- A separator occurrence starting strictly before position `|xs|` in
`xs ++ '\n---\n' ++ rest` lies entirely inside the first `|xs| + 4`
characters, i.e. inside `xs ++ '\n---'`; so when `'\n---\n'` is not an
infix of `xs ++ '\n---'`, the separator appended after `xs` is the first
occurrence and `findFmSep` splits exactly there. -/
theorem findFmSep_first_sep (rest : List Char) (xs : List Char)
    (hsep : ¬ ['\n', '-', '-', '-', '\n'] <:+:
        (xs ++ ['\n', '-', '-', '-'])) :
    Markdown.findFmSep (xs ++ '\n' :: '-' :: '-' :: '-' :: '\n' :: rest) =
      some (xs, rest) := by
  induction xs with
  | nil =>
    have hpre : (['\n', '-', '-', '-', '\n'].isPrefixOf
        ('\n' :: '-' :: '-' :: '-' :: '\n' :: rest)) = true := by
      simp [List.isPrefixOf]
    simp only [List.nil_append]
    rw [findFmSep_cons, if_pos hpre]
    rfl
  | cons c cs ih =>
    have hfalse : (['\n', '-', '-', '-', '\n'].isPrefixOf
        (c :: (cs ++ '\n' :: '-' :: '-' :: '-' :: '\n' :: rest))) = false := by
      by_contra hcon
      rw [Bool.not_eq_false] at hcon
      have hp : ['\n', '-', '-', '-', '\n'] <+:
          (c :: (cs ++ '\n' :: '-' :: '-' :: '-' :: '\n' :: rest)) :=
        List.isPrefixOf_iff_prefix.mp hcon
      have hshape : (c :: (cs ++ '\n' :: '-' :: '-' :: '-' :: '\n' :: rest))
          = ((c :: cs) ++ ['\n', '-', '-', '-']) ++ '\n' :: rest := by
        simp
      rw [hshape] at hp
      obtain ⟨r, hr⟩ := hp
      have hlen : 5 ≤ ((c :: cs) ++ ['\n', '-', '-', '-']).length := by
        simp
      have h5 : ((['\n', '-', '-', '-', '\n'] ++ r).take 5 : List Char) =
          ['\n', '-', '-', '-', '\n'] := by simp
      rw [hr, List.take_append_of_le_length hlen] at h5
      apply hsep
      have hpre2 : ['\n', '-', '-', '-', '\n'] <+:
          ((c :: cs) ++ ['\n', '-', '-', '-']) := by
        rw [← h5]
        exact List.take_prefix 5 _
      obtain ⟨r2, hr2⟩ := hpre2
      exact ⟨[], r2, by simpa using hr2⟩
    have hsep' : ¬ ['\n', '-', '-', '-', '\n'] <:+:
        (cs ++ ['\n', '-', '-', '-']) := by
      intro hcontra
      apply hsep
      obtain ⟨s, t, hst⟩ := hcontra
      refine ⟨c :: s, t, ?_⟩
      simp only [List.cons_append]
      rw [hst]
    simp only [List.cons_append]
    rw [findFmSep_cons, if_neg (by simp [hfalse])]
    rw [ih hsep']

theorem jsIndexOf_append (v : List Char) (k : List Char)
    (h : ∀ c ∈ k, c ≠ ':') :
    jsIndexOf ':' (k ++ ':' :: v) = some k.length := by
  induction k with
  | nil => simp [jsIndexOf]
  | cons c cs ih =>
    have hc : c ≠ ':' := h c (by simp)
    simp only [List.cons_append, jsIndexOf]
    rw [if_neg (by simpa using hc)]
    simp only [List.append_eq]
    rw [ih (fun d hd => h d (by simp [hd]))]
    simp

/-! ### C1 -/

/-- C1: for every route whose skill, topic and article slugs all resolve in
the loaded manifest, `getArticlePath` returns exactly
`content/<skillFolder>/<topicFolder>/<articleFile>.md` built from the
manifest's stored folder names and file stem; any unresolvable level yields
the not-found signal `none`; and the route `#/sf/admin/user-management`
against the scenario manifest resolves to
`content/Salesforce/Admin/user-management.md`. -/
theorem c1_article_path_resolution (m : Nav.Manifest) (s t a : String) :
    (∀ sk tp ar,
        m.skills.find? (fun x => x.slug == s) = some sk →
        sk.topics.find? (fun x => x.slug == t) = some tp →
        tp.articles.find? (fun x => x.slug == a) = some ar →
        Nav.getArticlePath m s t a =
          some ("content/" ++ sk.folder ++ "/" ++ tp.folder ++ "/" ++
            ar.file ++ ".md"))
    ∧ (m.skills.find? (fun x => x.slug == s) = none →
        Nav.getArticlePath m s t a = none)
    ∧ (∀ sk, m.skills.find? (fun x => x.slug == s) = some sk →
        sk.topics.find? (fun x => x.slug == t) = none →
        Nav.getArticlePath m s t a = none)
    ∧ (∀ sk tp, m.skills.find? (fun x => x.slug == s) = some sk →
        sk.topics.find? (fun x => x.slug == t) = some tp →
        tp.articles.find? (fun x => x.slug == a) = none →
        Nav.getArticlePath m s t a = none)
    ∧ ((Router.parseHash "#/sf/admin/user-management").skill = some "sf"
        ∧ (Router.parseHash "#/sf/admin/user-management").topic = some "admin"
        ∧ (Router.parseHash "#/sf/admin/user-management").article =
            some "user-management"
        ∧ Nav.getArticlePath Nav.demoManifest "sf" "admin" "user-management"
            = some "content/Salesforce/Admin/user-management.md") := by
  refine ⟨?_, ?_, ?_, ?_, ?_⟩
  · intro sk tp ar h1 h2 h3
    simp only [Nav.getArticlePath, h1, h2, h3]
  · intro h1
    simp only [Nav.getArticlePath, h1]
  · intro sk h1 h2
    simp only [Nav.getArticlePath, h1, h2]
  · intro sk tp h1 h2 h3
    simp only [Nav.getArticlePath, h1, h2, h3]
  · refine ⟨by decide, by decide, by decide, by decide⟩

/-- Witness for C1 at the scenario manifest: all three lookups succeed and
the resolved path is built from the stored folder names and the file stem. -/
theorem c1_article_path_resolution_witness :
    Nav.getArticlePath Nav.demoManifest "sf" "admin" "user-management" =
      some ("content/" ++ Nav.demoSkill.folder ++ "/" ++
        Nav.demoTopic.folder ++ "/" ++ Nav.demoArticle.file ++ ".md") :=
  (c1_article_path_resolution Nav.demoManifest "sf" "admin"
      "user-management").1 Nav.demoSkill Nav.demoTopic Nav.demoArticle
    (by decide) (by decide) (by decide)

/-! ### C2 -/

/-- C2 counterexample: `search` does not lowercase the query itself (its
callers do).  For the uppercase query `APEX` the code computes score 0 for
the scenario article and returns no results, while the claimed recipe —
lowercase the query, then match — yields score 15 and would include the
article. -/
theorem c2_search_scoring_counterexample :
    Search.score "APEX" Search.apexArticle = 0
    ∧ Search.claimScore "APEX" Search.apexArticle = 15
    ∧ Search.search "APEX" [Search.apexArticle] = [] := by
  refine ⟨by decide, by decide, ?_⟩
  unfold Search.search
  have h : ([Search.apexArticle].map
      (fun a => (a, Search.score "APEX" a))).filter
      (fun p => decide (0 < p.2)) = [] := by decide
  rw [h, List.mergeSort_nil]
  rfl

/-- C2 amended: for queries that are already lowercase — which is every
query the code ever passes, since `handleInput` and `handleFocus` lowercase
and trim the input before calling `search` — the computed score is exactly
the claimed recipe's score, and every article with total score 0 is
excluded from the results. -/
theorem c2_search_scoring_lowercase (q : String) (a : Search.FlatArticle)
    (arts : List Search.FlatArticle) (h : jsToLower q = q) :
    Search.score q a = Search.claimScore q a
    ∧ ∀ p ∈ Search.search q arts, 0 < p.2 := by
  constructor
  · simp only [Search.score, Search.claimScore, h]
  · intro p hp
    exact mem_search_pos hp

/-- Witness for the amended C2 at the scenario article with the lowercase
form of the scenario query. -/
theorem c2_search_scoring_lowercase_witness :
    Search.score "apex" Search.apexArticle =
      Search.claimScore "apex" Search.apexArticle :=
  (c2_search_scoring_lowercase "apex" Search.apexArticle [] (by decide)).1

/-! ### C3 -/

theorem scoreLe_trans (x y z : Search.FlatArticle × Nat)
    (h1 : Search.scoreLe x y) (h2 : Search.scoreLe y z) :
    Search.scoreLe x z := by
  simp only [Search.scoreLe, decide_eq_true_eq] at h1 h2 ⊢
  omega

theorem scoreLe_total (x y : Search.FlatArticle × Nat) :
    Search.scoreLe x y || Search.scoreLe y x := by
  simp only [Search.scoreLe]
  rcases Nat.le_total y.2 x.2 with h | h <;> simp [h]

/-- C3: search results are at most 10, sorted by weakly descending score,
and stable: for every score value, the results carrying that score form a
prefix of the equally-scored entries of the scored flat article index in
its original traversal order. -/
theorem c3_search_results_shape (q : String)
    (arts : List Search.FlatArticle) :
    (Search.search q arts).length ≤ 10
    ∧ (Search.search q arts).Pairwise (fun x y => y.2 ≤ x.2)
    ∧ ∀ n : Nat, (Search.search q arts).filter (fun p => p.2 == n) <+:
        ((arts.map (fun x => (x, Search.score q x))).filter
          (fun p => p.2 == n)) := by
  refine ⟨?_, ?_, ?_⟩
  · unfold Search.search
    exact List.length_take_le 10 _
  · unfold Search.search
    have hsorted := List.sorted_mergeSort scoreLe_trans scoreLe_total
      ((arts.map (fun x => (x, Search.score q x))).filter
        (fun p => decide (0 < p.2)))
    refine List.Pairwise.imp ?_
      (List.Pairwise.sublist (List.take_sublist 10 _) hsorted)
    intro x y hxy
    simpa [Search.scoreLe] using hxy
  · intro n
    by_cases hn : n = 0
    · subst hn
      have hnil : (Search.search q arts).filter (fun p => p.2 == 0) = [] := by
        rw [List.filter_eq_nil_iff]
        intro p hp
        have hpos := mem_search_pos hp
        simp only [beq_iff_eq]
        omega
      rw [hnil]
      exact List.nil_prefix
    · have key : ((((arts.map (fun x => (x, Search.score q x))).filter
          (fun p => decide (0 < p.2))).mergeSort Search.scoreLe).filter
            (fun p => p.2 == n))
          = (((arts.map (fun x => (x, Search.score q x))).filter
              (fun p => decide (0 < p.2))).filter (fun p => p.2 == n)) := by
        set L := (arts.map (fun x => (x, Search.score q x))).filter
          (fun p => decide (0 < p.2)) with hL
        have hpair : (L.filter (fun p => p.2 == n)).Pairwise
            (fun x y => Search.scoreLe x y = true) := by
          apply List.pairwise_of_forall_mem_list
          intro x hx y hy
          have hx2 := (List.mem_filter.mp hx).2
          have hy2 := (List.mem_filter.mp hy).2
          simp only [beq_iff_eq] at hx2 hy2
          simp [Search.scoreLe, hx2, hy2]
        have hsub : List.Sublist (L.filter (fun p => p.2 == n))
            (L.mergeSort Search.scoreLe) :=
          List.sublist_mergeSort scoreLe_trans scoreLe_total hpair
            (List.filter_sublist L)
        have hfid : (L.filter (fun p => p.2 == n)).filter (fun p => p.2 == n)
            = L.filter (fun p => p.2 == n) :=
          List.filter_eq_self.mpr (fun x hx => (List.mem_filter.mp hx).2)
        have hsub2 : List.Sublist (L.filter (fun p => p.2 == n))
            ((L.mergeSort Search.scoreLe).filter (fun p => p.2 == n)) := by
          have hstep := List.Sublist.filter (fun p => p.2 == n) hsub
          rwa [hfid] at hstep
        have hlen : ((L.mergeSort Search.scoreLe).filter
            (fun p => p.2 == n)).length
            = (L.filter (fun p => p.2 == n)).length :=
          (List.Perm.filter (fun p => p.2 == n)
            (List.mergeSort_perm L Search.scoreLe)).length_eq
        exact (hsub2.eq_of_length hlen.symm).symm
      have hLfilter : (((arts.map (fun x => (x, Search.score q x))).filter
            (fun p => decide (0 < p.2))).filter (fun p => p.2 == n))
          = ((arts.map (fun x => (x, Search.score q x))).filter
              (fun p => p.2 == n)) := by
        rw [List.filter_filter]
        apply List.filter_congr
        intro x _
        by_cases hx2 : (x.2 == n) = true
        · have hxn : x.2 = n := by simpa using hx2
          have hxpos : 0 < x.2 := by omega
          simp [hx2, hxpos]
        · simp only [Bool.not_eq_true] at hx2
          simp [hx2]
      have hstep : (Search.search q arts).filter (fun p => p.2 == n) <+:
          ((((arts.map (fun x => (x, Search.score q x))).filter
            (fun p => decide (0 < p.2))).mergeSort Search.scoreLe).filter
              (fun p => p.2 == n)) := by
        unfold Search.search
        exact List.IsPrefix.filter _ ( List.take_prefix 10 _)
      rw [key, hLfilter] at hstep
      exact hstep

/-! ### C4 -/

/-- C4: `parseHash` inverts `buildPath` on slug-safe segments: building the
path for non-null skill/topic/article and parsing the resulting fragment
(after `navigate` prepends the `#`) recovers exactly the three segments. -/
theorem c4_parse_build_roundtrip (s t a : String) (hs : Router.SlugSafe s)
    (ht : Router.SlugSafe t) (ha : Router.SlugSafe a) :
    (Router.parseHash
        ("#" ++ Router.buildPath (some s) (some t) (some a))).skill = some s
    ∧ (Router.parseHash
        ("#" ++ Router.buildPath (some s) (some t) (some a))).topic = some t
    ∧ (Router.parseHash
        ("#" ++ Router.buildPath (some s) (some t) (some a))).article
        = some a := by
  obtain ⟨hs1, hs2⟩ := hs
  obtain ⟨ht1, ht2⟩ := ht
  obtain ⟨ha1, ha2⟩ := ha
  have hse : s.data.isEmpty = false := by simpa [List.isEmpty_iff] using hs1
  have hte : t.data.isEmpty = false := by simpa [List.isEmpty_iff] using ht1
  have hae : a.data.isEmpty = false := by simpa [List.isEmpty_iff] using ha1
  have lh : ("#" : String).data = ['#'] := rfl
  have lsl : ("/" : String).data = ['/'] := rfl
  have lemp : ("" : String).data = [] := rfl
  have hdata : ("#" ++ Router.buildPath (some s) (some t) (some a)).data =
      '#' :: '/' :: (s.data ++ '/' :: (t.data ++ '/' :: a.data)) := by
    simp [Router.buildPath, optTruthy, hse, hte, hae, jsJoin,
      String.data_append, lh, lsl, lemp]
  have h1 : splitAux '/'
      ('/' :: (s.data ++ '/' :: (t.data ++ '/' :: a.data))) []
      = [[], s.data, t.data, a.data] := by
    have e1 : ('/' :: (s.data ++ '/' :: (t.data ++ '/' :: a.data)))
        = [] ++ '/' :: (s.data ++ '/' :: (t.data ++ '/' :: a.data)) := rfl
    rw [e1, splitAux_sep_split '/' _ [] [] (by simp)]
    rw [splitAux_sep_split '/' _ s.data [] (fun c hc => (hs2 c hc).1)]
    rw [splitAux_sep_split '/' _ t.data [] (fun c hc => (ht2 c hc).1)]
    rw [splitAux_no_sep '/' a.data [] (fun c hc => (ha2 c hc).1)]
    simp
  simp only [Router.parseHash, hdata, List.drop_succ_cons, List.drop_zero,
    List.isEmpty_cons, Bool.false_eq_true, if_false, h1, List.map_cons,
    List.map_nil, List.filter_cons, List.filter_nil]
  simp [string_mk_data, hse, hte, hae]

/-- Witness for C4 at the scenario's slug triple. -/
theorem c4_parse_build_roundtrip_witness :
    (Router.parseHash ("#" ++ Router.buildPath (some "sf") (some "admin")
        (some "user-management"))).skill = some "sf" :=
  (c4_parse_build_roundtrip "sf" "admin" "user-management" (by decide)
    (by decide) (by decide)).1

/-! ### C5 -/

theorem tokensAux_append_ws (ws' : List Char) (c : Char)
    (hc : c.isWhitespace = true) (qs : List Char) :
    ∀ acc, tokensAux (qs ++ c :: ws') acc =
      tokensAux qs acc ++ tokensAux ws' [] := by
  induction qs with
  | nil =>
    intro acc
    by_cases h : acc.isEmpty <;> simp [tokensAux, hc, h]
  | cons d ds ih =>
    intro acc
    simp only [List.cons_append, tokensAux]
    by_cases hd : d.isWhitespace
    · by_cases h : acc.isEmpty <;> simp [hd, h, ih]
    · simp only [hd, Bool.false_eq_true, if_false]
      exact ih (d :: acc)

theorem tokensAux_nonws_acc (ws : List Char)
    (h : ∀ c ∈ ws, c.isWhitespace = false) :
    ∀ acc, tokensAux ws acc =
      if (acc.isEmpty && ws.isEmpty) = true then []
      else [acc.reverse ++ ws] := by
  induction ws with
  | nil =>
    intro acc
    by_cases h' : acc.isEmpty <;> simp [tokensAux, h']
  | cons c cs ih =>
    intro acc
    have hc : c.isWhitespace = false := h c (by simp)
    simp only [tokensAux, hc, Bool.false_eq_true, if_false]
    rw [ih (fun d hd => h d (by simp [hd])) (c :: acc)]
    simp

theorem jsTerms_extend (q w : String) (hw : w.data ≠ [])
    (hws : ∀ c ∈ w.data, c.isWhitespace = false) :
    jsTerms (q ++ " " ++ w) = jsTerms q ++ [w] := by
  have hsp : (" " : String).data = [' '] := rfl
  have hd : (q ++ " " ++ w).data = q.data ++ ' ' :: w.data := by
    simp [String.data_append, hsp]
  unfold jsTerms
  rw [hd, tokensAux_append_ws w.data ' ' (by decide) q.data []]
  rw [tokensAux_nonws_acc w.data hws []]
  have hne : w.data.isEmpty = false := by
    simpa [List.isEmpty_iff] using hw
  simp [hne, string_mk_data]

theorem titleFold_append (tl : String) (w : String) (ts : List String)
    (n : Nat) :
    List.foldl (fun sc term =>
      if jsIncludes tl term then
        sc + 10 + (if jsStartsWith tl term then 5 else 0)
      else sc) n (ts ++ [w]) =
    List.foldl (fun sc term =>
      if jsIncludes tl term then
        sc + 10 + (if jsStartsWith tl term then 5 else 0)
      else sc) n ts +
      (if jsIncludes tl w then 10 + (if jsStartsWith tl w then 5 else 0)
       else 0) := by
  rw [List.foldl_append]
  simp only [List.foldl_cons, List.foldl_nil]
  split_ifs <;> omega

/-- C5 counterexample: score-rank monotonicity under query extension fails.
With query `ab`, `artHigh` (title `ab cd`, skill `ab`, topic `ab`) scores
20 and outranks `artLow` (title `cd ab`, skill `zz`, topic `ab cd`) which
scores 12.  Appending the term `cd` — which matches `artHigh`'s title —
gives query `ab cd`, under which `artHigh` scores only 25 (it loses the
raw-query skill and topic bonuses) while `artLow` scores 27 (it gains the
starts-with bonus for `cd` and keeps its topic bonus): the previously
higher-ranked article's score falls below the other's. -/
theorem c5_monotonicity_counterexample :
    ("ab" ++ " " ++ "cd" : String) = "ab cd"
    ∧ jsIncludes (jsToLower Search.artHigh.title) "cd" = true
    ∧ Search.score "ab" Search.artHigh = 20
    ∧ Search.score "ab" Search.artLow = 12
    ∧ Search.score "ab cd" Search.artHigh = 25
    ∧ Search.score "ab cd" Search.artLow = 27 := by
  refine ⟨by decide, by decide, by decide, by decide, by decide, by decide⟩

/-- C5 amended: extending the query by a whitespace-free term that matches
the article's lowercased title never decreases that article's own score —
it gains at least 10 from the new term and can lose at most the 3+2
raw-query bonuses, so it rises by at least 5.  Relative rank against other
articles may still change (see the counterexample). -/
theorem c5_query_extension_amended (a : Search.FlatArticle) (q w : String)
    (hw : w.data ≠ []) (hws : ∀ c ∈ w.data, c.isWhitespace = false)
    (hmatch : jsIncludes (jsToLower a.title) w = true) :
    Search.score q a + 5 ≤ Search.score (q ++ " " ++ w) a := by
  simp only [Search.score]
  rw [jsTerms_extend q w hw hws, titleFold_append, if_pos hmatch]
  split_ifs <;> omega

/-- Witness for the amended C5 at the counterexample's own inputs. -/
theorem c5_query_extension_amended_witness :
    Search.score "ab" Search.artHigh + 5 ≤
      Search.score ("ab" ++ " " ++ "cd") Search.artHigh :=
  c5_query_extension_amended Search.artHigh "ab" "cd" (by decide)
    (by decide) (by decide)

/-! ### C6 -/

/-- C6: the claimed last-fetch-wins rule fails on the code. In the
overlapping-load trace (`load(a)`, then `load(b)`, fetch for `b` completes,
stale fetch for `a` completes last) the renderer ends up displaying the
stale body of `a`, even though the most recently initiated load is `b`
(as `currentPath` records): `MarkdownRenderer.load` re-renders on every
fetch completion without comparing the completed path against
`currentPath`. -/
theorem c6_stale_fetch_overwrites :
    (Markdown.runTrace Markdown.raceStart Markdown.raceTrace).display =
      Markdown.Display.article [] "Stale body"
    ∧ (Markdown.runTrace Markdown.raceStart Markdown.raceTrace).currentPath
      = some "content/Salesforce/Admin/b.md" := by
  constructor
  · decide
  · decide

/-! ### C7 -/

/-- C7: a failed article fetch (non-success HTTP status or network failure,
both reaching the `catch` branch) renders the error placeholder in the
renderer's own container and leaves the router's current route and the
navigation tree state unchanged; the step function is total, so no
exception propagates to the caller. -/
theorem c7_fetch_failure_contained {Nav : Type} (s : Markdown.AppModel Nav)
    (p : String) :
    (Markdown.mdStep s (.fetchDone p (.error ()))).display =
      Markdown.Display.errorState
    ∧ (Markdown.mdStep s (.fetchDone p (.error ()))).route = s.route
    ∧ (Markdown.mdStep s (.fetchDone p (.error ()))).nav = s.nav :=
  ⟨rfl, rfl, rfl⟩

/-! ### C8 -/

/-- C8 counterexample: front-matter values are only whitespace-trimmed and
never quote-stripped.  For a block line `title: "Hello"` the stored value
keeps its surrounding quotes, whereas the claimed quote-stripping would
store `Hello`, a different string. -/
theorem c8_frontmatter_counterexample :
    Markdown.parseFrontmatter "---\ntitle: \"Hello\"\n---\nRest" =
      ([("title", "\"Hello\"")], "Rest")
    ∧ Markdown.stripQuotes (jsTrim " \"Hello\"") = "Hello"
    ∧ ("\"Hello\"" : String) ≠ "Hello" := by
  refine ⟨by decide, by decide, by decide⟩

/-- C8 amended: `parseFrontmatter` on a document beginning with a
triple-dash block returns flat key:value metadata whose values are only
whitespace-trimmed (surrounding quotes are preserved), paired with the
remaining text; on a document with no block it returns empty metadata and
the full unmodified document.  The block case is stated for raw blocks in
which the appended closing line is the first occurrence of the `\n---\n`
separator (equivalently, the separator is not an infix of the block
followed by `\n---`), and the line case for a single `key: value` line. -/
theorem c8_frontmatter_amended (doc fm body k v : String) :
    (Markdown.fmSplit doc = none →
      Markdown.parseFrontmatter doc = ([], doc))
    ∧ ((¬ ['\n', '-', '-', '-', '\n'] <:+:
          (fm.data ++ ['\n', '-', '-', '-'])) →
        Markdown.parseFrontmatter ("---\n" ++ fm ++ "\n---\n" ++ body) =
          (Markdown.parseMeta fm, body))
    ∧ (k.data ≠ [] → (∀ c ∈ k.data, c ≠ ':' ∧ c ≠ '\n') →
        (∀ c ∈ v.data, c ≠ '\n') →
        Markdown.parseMeta (k ++ ":" ++ v) = [(jsTrim k, jsTrim v)]) := by
  refine ⟨?_, ?_, ?_⟩
  · intro h
    simp [Markdown.parseFrontmatter, h]
  · intro hnd
    have l1 : ("---\n" : String).data = ['-', '-', '-', '\n'] := rfl
    have l2 : ("\n---\n" : String).data = ['\n', '-', '-', '-', '\n'] := rfl
    have hdata : ("---\n" ++ fm ++ "\n---\n" ++ body).data =
        '-' :: '-' :: '-' :: '\n' ::
          (fm.data ++ '\n' :: '-' :: '-' :: '-' :: '\n' :: body.data) := by
      simp [String.data_append, l1, l2, List.append_assoc]
    have hsplit : Markdown.fmSplit ("---\n" ++ fm ++ "\n---\n" ++ body) =
        some (fm, body) := by
      unfold Markdown.fmSplit
      rw [hdata]
      rw [if_pos (by simp [List.isPrefixOf])]
      have hdrop : ('-' :: '-' :: '-' :: '\n' ::
          (fm.data ++ '\n' :: '-' :: '-' :: '-' :: '\n' :: body.data)).drop 4
          = fm.data ++ '\n' :: '-' :: '-' :: '-' :: '\n' :: body.data := rfl
      rw [hdrop, findFmSep_first_sep _ _ hnd]
    simp [Markdown.parseFrontmatter, hsplit]
  · intro hk hkv hvn
    have l3 : (":" : String).data = [':'] := rfl
    have hdata : (k ++ ":" ++ v).data = k.data ++ ':' :: v.data := by
      simp [String.data_append, l3]
    have hnl : ∀ c ∈ k.data ++ ':' :: v.data, c ≠ '\n' := by
      intro c hc
      rcases List.mem_append.mp hc with h1 | h2
      · exact (hkv c h1).2
      · rcases List.mem_cons.mp h2 with h3 | h4
        · subst h3; decide
        · exact hvn c h4
    unfold Markdown.parseMeta
    rw [hdata, splitAux_no_sep '\n' _ [] hnl]
    simp only [List.reverse_nil, List.nil_append, List.map_cons,
      List.map_nil, List.foldl_cons, List.foldl_nil]
    have hidx := jsIndexOf_append v.data k.data (fun c hc => (hkv c hc).1)
    rw [hidx]
    have hpos : 0 < k.data.length := List.length_pos.mpr hk
    simp only [hpos, if_true, List.take_left]
    have hsplit2 : k.data ++ ':' :: v.data = (k.data ++ [':']) ++ v.data := by
      simp
    rw [hsplit2, List.drop_left' (by simp)]
    simp [Markdown.metaSet, string_mk_data]

/-- Witness for the amended C8: an ordinary two-line block — including a
dash-containing `date: 2024-12-28` value, as in this repository's own
articles — parses into its metadata with the body returned unchanged. -/
theorem c8_frontmatter_amended_witness :
    Markdown.parseFrontmatter
        ("---\n" ++ "title: User Management\ndate: 2024-12-28" ++ "\n---\n"
          ++ "Body text") =
      (Markdown.parseMeta "title: User Management\ndate: 2024-12-28",
        "Body text") :=
  (c8_frontmatter_amended "x" "title: User Management\ndate: 2024-12-28"
    "Body text" "k" "v").2.1 (by decide)

/-! ### C9 -/

/-- C9: `TableOfContents.generate` discards all prior TOC state
unconditionally — the resulting state does not depend on the previous
state at all — and content with zero level 1-4 headings (including `null`
content) yields the explicit empty state with empty heading and link
lists. -/
theorem c9_toc_generate_discards (s₁ s₂ : Toc.State)
    (c : Option (List Toc.Node)) :
    Toc.generate s₁ c = Toc.generate s₂ c
    ∧ (Toc.headingsOf c = [] →
        Toc.generate s₁ c =
          { display := .emptyState, headings := [], links := []
            activeIndex := -1 }) := by
  refine ⟨rfl, fun h => ?_⟩
  simp only [Toc.generate, h]
  rfl

/-- Witness for C9: regenerating over content whose only elements are a
non-heading node and an `h5` (outside the harvested levels 1-4) wipes a
previously populated TOC state down to the empty state. -/
theorem c9_toc_generate_discards_witness :
    Toc.generate
      { display := .tocList [("#old", "Old", 2)]
        headings := [("old", 2)]
        links := [("#old", "Old", 2)]
        activeIndex := 0 }
      (some [Toc.Node.other, Toc.Node.heading 5 "deep" "Too deep"]) =
      { display := .emptyState, headings := [], links := []
        activeIndex := -1 } :=
  (c9_toc_generate_discards
    { display := .tocList [("#old", "Old", 2)]
      headings := [("old", 2)]
      links := [("#old", "Old", 2)]
      activeIndex := 0 }
    { display := .emptyState, headings := [], links := [], activeIndex := -1 }
    (some [Toc.Node.other, Toc.Node.heading 5 "deep" "Too deep"])).2
    (by decide)

/-! ### C10 -/

/-- C10: routes produced by `parseHash` are prefix-closed: a non-null
article implies a non-null topic, and a non-null topic implies a non-null
skill, because empty segments are filtered out before positional
assignment. -/
theorem c10_route_prefix_closed (h : String) :
    ((Router.parseHash h).article.isSome = true →
      (Router.parseHash h).topic.isSome = true)
    ∧ ((Router.parseHash h).topic.isSome = true →
      (Router.parseHash h).skill.isSome = true) := by
  have key : ∀ (l : List String) (i j : Nat), j ≤ i →
      l[i]?.isSome = true → l[j]?.isSome = true := by
    intro l i j hji hi
    have hlen : i < l.length := by
      rcases hx : l[i]? with _ | v
      · rw [hx] at hi; simp at hi
      · exact (List.getElem?_eq_some_iff.mp hx).1
    rw [List.getElem?_eq_getElem (by omega : j < l.length)]
    rfl
  unfold Router.parseHash
  exact ⟨key _ 2 1 (by omega), key _ 1 0 (by omega)⟩

/-- Witness for C10 at a fully specified route. -/
theorem c10_route_prefix_closed_witness :
    (Router.parseHash "#/sf/admin/user-management").topic.isSome = true :=
  (c10_route_prefix_closed "#/sf/admin/user-management").1 (by decide)

end MyBlogs
